import Mathlib

/-!
Shallow embedding of the package/part resolution layer of docx2python
(src/docx2python/docx_reader.py): the File (Part) and DocxReader (Package)
classes, their lazily cached properties, lookup-by-type accessors, the
selective-rewrite save path and binary image extraction.

Modelling conventions, stated once:

* Byte strings are lists of naturals; zip archives are ordered lists of
  (entry, bytes) pairs together with an open/closed flag (CPython ZipFile
  keeps a file pointer that close() releases) and a count of how many times
  the underlying file pointer was released (to state "no double free").
  ZipFile.read(name) first checks the handle is open (raising ValueError
  otherwise) and then resolves name through NameToInfo, which maps a name to
  the last entry bearing it; a missing name raises KeyError.  The error type
  ReadErr mirrors exactly these two failure modes.
* lxml etree trees are an inductive with a tag, an attribute list and
  children.  The external collaborators (etree.fromstring, etree.tostring,
  merge_elems, collect_rels, collect_numFmts, get_text) are out-of-scope
  per the specification and are universally quantified function parameters
  gathered in the Externals structure.  merge_elems mutates its tree in
  place and may raise: its outcome is either the merged tree or the
  partially mutated tree paired with the repr of the exception.
* Python in-place caching (the sentinel-guarded private attributes
  File.__path, __rels_path, __rels, __root_element and
  DocxReader.__zipf, __files, __numId2NumFmts) is explicit state passing:
  each property getter returns (value, state after, n) where n counts how
  many times the underlying computation ran during the call (0 on a cache
  hit, 1 on a miss); fallible getters return this triple under Except.
  Warnings emitted through warnings.warn are returned as a list of the
  warning strings.
* The image_directory side branch of pull_image_files and the text
  formatting options (html, paragraph_styles) touch nothing the claims
  mention and are omitted; File.content delegates to the external text
  extractor get_text, passed as a function parameter.
-/

namespace docx2python

/-- Bytes of an archive entry, modelled as a list of naturals. -/
abbrev Bytes := List Nat

/-- Python string comparison on lists of characters: ascending lexicographic
order of Unicode code points, as used by sorted with a string key. -/
def charListLe : List Char → List Char → Bool
  | [], _ => true
  | _ :: _, [] => false
  | a :: as, b :: bs =>
    if a.toNat < b.toNat then true
    else if b.toNat < a.toNat then false
    else charListLe as bs

/-- Python string comparison (the inequality sorted uses on str keys). -/
def strLe (a b : String) : Bool := charListLe a.data b.data

/-- os.path.basename for POSIX paths: everything after the last slash. -/
def basename (s : String) : String :=
  String.mk ((s.data.reverse.takeWhile (fun c => c ≠ '/')).reverse)

/-- os.path.dirname for POSIX paths: everything before the last slash, with
trailing slashes stripped unless the head is all slashes. -/
def dirname (s : String) : String :=
  let head := (s.data.reverse.dropWhile (fun c => c ≠ '/')).reverse
  if head ≠ [] ∧ head.any (fun c => c ≠ '/') then
    String.mk ((head.reverse.dropWhile (fun c => c = '/')).reverse)
  else String.mk head

/-- Python str.join: concatenate the pieces with the separator between each
consecutive pair. -/
def pyJoin (sep : String) : List String → String
  | [] => ""
  | [x] => x
  | x :: y :: rest => x ++ sep ++ pyJoin sep (y :: rest)

/-- lxml element tree: a tag, an attribute mapping and the child elements. -/
inductive Tree where
  | node (tag : String) (attrib : List (String × String)) (children : List Tree)

/-- Tag of the root node. -/
def Tree.tag : Tree → String
  | .node t _ _ => t

/-- Attribute list of the root node. -/
def Tree.attrib : Tree → List (String × String)
  | .node _ a _ => a

/-- Child elements of the root node. -/
def Tree.children : Tree → List Tree
  | .node _ _ c => c

/-- Outcome of the external in-place merge_elems transform: either the tree
after a successful merge, or the (possibly partially mutated) tree at the
moment an exception was raised, paired with the repr of that exception. -/
inductive MergeOutcome where
  | done (merged : Tree)
  | raised (mutated : Tree) (exn : String)

/-- One raw relationship record as collect_rels yields it: the Id, the full
Type URI and the Target of one Relationship element. -/
structure RelRecord where
  Id : String
  Type_ : String
  Target : String

/-- Metadata of one archive entry (a ZipInfo): its stored filename plus the
rest of the header, opaque to this layer. -/
structure ZipEntry where
  filename : String
  meta : Nat

/-- An open or closed zipfile.ZipFile: the entries in archive order, whether
the underlying file pointer is still open, and how many times that pointer
has been released (for stating that close never double-frees). -/
structure ZipState where
  entries : List (ZipEntry × Bytes)
  fpOpen : Bool
  frees : Nat

/-- The two ways ZipFile.read fails: ValueError on a closed handle (checked
first), KeyError when no entry bears the requested name. -/
inductive ReadErr where
  | closed
  | keyError
deriving DecidableEq

/-- ZipFile.read(name): refuse if the handle is closed, otherwise return the
bytes of the last entry whose stored filename equals name (NameToInfo keeps
the last header for a repeated name), or KeyError if there is none. -/
def ZipState.read (z : ZipState) (name : String) : Except ReadErr Bytes :=
  if z.fpOpen then
    match (z.entries.filter (fun e => e.1.filename = name)).getLast? with
    | some e => .ok e.2
    | none => .error ReadErr.keyError
  else .error ReadErr.closed

/-- ZipFile.close: release the file pointer if it is still open, otherwise
return at once (CPython guards close with an early return on a released
pointer, so a repeated close frees nothing). -/
def ZipState.close (z : ZipState) : ZipState :=
  if z.fpOpen then { entries := z.entries, fpOpen := false, frees := z.frees + 1 }
  else z

/-- The external collaborators consumed by the core, as function parameters:
etree.fromstring, etree.tostring, merge_elems, collect_rels and
collect_numFmts. -/
structure Externals where
  fromstring : Bytes → Tree
  tostring : Tree → Bytes
  merge_elems : Tree → MergeOutcome
  collect_rels : ZipState → List (String × List RelRecord)
  collect_numFmts : Tree → List (String × List String)

/-- The recognized content part types (module constant CONTENT_FILE_TYPES;
a Python set, modelled as a list used only through membership). -/
def CONTENT_FILE_TYPES : List String :=
  ["officeDocument", "header", "footer", "footnotes", "endnotes"]

/-- A File instance: the relationship attributes stored by __init__ (Type is
reduced to the basename of its URI there) plus the four sentinel-guarded
caches __path, __rels_path, __rels and __root_element. -/
structure File where
  Id : String
  Type_ : String
  Target : String
  dir : String
  cachedPath : Option String
  cachedRelsPath : Option String
  cachedRels : Option (List (String × String))
  cachedRoot : Option Tree

/-- File.__init__ from one raw relationship record plus the directory of the
declaring rels file: Type becomes the basename of the Type URI and every
cache starts empty. -/
def File.ofRecord (x : RelRecord) (d : String) : File :=
  { Id := x.Id, Type_ := basename x.Type_, Target := x.Target, dir := d,
    cachedPath := none, cachedRelsPath := none, cachedRels := none,
    cachedRoot := none }

/-- Body of the File.path property: dirs of dir and Target, keep the
non-empty ones joined with a slash, then join with the basename of Target. -/
def File.pathCalc (d Target : String) : String :=
  let dirs := [dirname d, dirname Target]
  let dn := pyJoin ("/") (dirs.filter (fun x => x ≠ ""))
  let filename := basename Target
  pyJoin ("/") [dn, filename]

/-- The File.path property: return the cache if present, else compute
pathCalc once and store it. -/
def File.path (f : File) : String × File × Nat :=
  match f.cachedPath with
  | some p => (p, f, 0)
  | none =>
    let p := File.pathCalc f.dir f.Target
    (p, { f with cachedPath := some p }, 1)

/-- Value the File.path property yields on the given state (used wherever
Python reads the property without our tracking the cache write-back). -/
def File.pathOf (f : File) : String := (File.path f).1

/-- Body of the File._rels_path property: split the storage path and name
the rels sibling directory/_rels/filename.rels. -/
def File.rels_pathCalc (p : String) : String :=
  pyJoin ("/") [dirname p, "_rels", basename p ++ ".rels"]

/-- The File._rels_path property: cache hit or compute once from the path
property (which it reads, so path gets cached as well). -/
def File.rels_path (f : File) : String × File × Nat :=
  match f.cachedRelsPath with
  | some rp => (rp, f, 0)
  | none =>
    let pr := File.path f
    let rp := File.rels_pathCalc pr.1
    (rp, { pr.2.1 with cachedRelsPath := some rp }, 1)

/-- Python dict assignment d[k] = v on a dict kept as an association list in
insertion order: overwrite the value in place if the key exists, else append
the pair. -/
def dictInsert {β : Type} (d : List (String × β)) (k : String) (v : β) :
    List (String × β) :=
  if d.any (fun p => p.1 = k) then
    d.map (fun p => if p.1 = k then (k, v) else p)
  else d ++ [(k, v)]

/-- Value stored under key k of such a dict, if any. -/
def dictLookup {β : Type} : List (String × β) → String → Option β
  | [], _ => none
  | p :: ps, k => if p.1 = k then some p.2 else dictLookup ps k

/-- The dict comprehension of File.rels over the parsed rels tree: the Id
attribute of each child mapped to its Target attribute; none models the
KeyError raised when a child lacks either attribute. -/
def relsFromTree (t : Tree) : Option (List (String × String)) :=
  match (Tree.children t).mapM (fun c =>
      match (Tree.attrib c).lookup ("Id"), (Tree.attrib c).lookup ("Target") with
      | some i, some tg => some (i, tg)
      | _, _ => none) with
  | none => none
  | some prs => some (prs.foldl (fun d p => dictInsert d p.1 p.2) [])

/-- The File.rels property: cache hit, or read the rels sibling from the
archive; a KeyError (absent entry, or a child missing an Id or Target
attribute) yields the empty mapping, while a read on a closed handle
propagates (the try only catches KeyError). -/
def File.rels (ext : Externals) (zip : ZipState) (f : File) :
    Except ReadErr ((List (String × String)) × File × Nat) :=
  match f.cachedRels with
  | some m => .ok (m, f, 0)
  | none =>
    let rp := File.rels_path f
    let f1 := rp.2.1
    match ZipState.read zip rp.1 with
    | .error ReadErr.keyError => .ok ([], { f1 with cachedRels := some [] }, 1)
    | .error ReadErr.closed => .error ReadErr.closed
    | .ok bs =>
      match relsFromTree (ext.fromstring bs) with
      | none => .ok ([], { f1 with cachedRels := some [] }, 1)
      | some m => .ok (m, { f1 with cachedRels := some m }, 1)

/-- Warning text of File.root_element when merge_elems raises (the f-string
interpolates the archive name, the part path and the repr of the error). -/
def mergeWarning (docx_filename path exn : String) : String :=
  "Attempt to merge consecutive elements in " ++ docx_filename ++ " " ++
    path ++ " resulted in " ++ exn ++ ". Moving on."

/-- The File.root_element property, translated statement by statement: on a
cache miss parse the storage-path bytes; for a content type take the
pre-transform copy root_, run merge_elems on root in place, and on an
exception warn and assign the copy to the cache -- an assignment that the
unconditional self.__root_element = root on the following line immediately
overwrites with the (possibly partially mutated) root, which is what gets
cached and returned on every path through the function. -/
def File.root_element (ext : Externals) (docx_filename : String)
    (zip : ZipState) (f : File) :
    Except ReadErr (Tree × File × (List String) × Nat) :=
  match f.cachedRoot with
  | some r => .ok (r, f, [], 0)
  | none =>
    let pr := File.path f
    let f1 := pr.2.1
    match ZipState.read zip pr.1 with
    | .error e => .error e
    | .ok bs =>
      let root := ext.fromstring bs
      if f1.Type_ ∈ CONTENT_FILE_TYPES then
        let root_copy := root
        match ext.merge_elems root with
        | MergeOutcome.done root1 =>
          .ok (root1, { f1 with cachedRoot := some root1 }, [], 1)
        | MergeOutcome.raised root1 exn =>
          let w := mergeWarning docx_filename pr.1 exn
          let f2 := { f1 with cachedRoot := some root_copy }
          let f3 := { f2 with cachedRoot := some root1 }
          .ok (root1, f3, [w], 1)
      else
        .ok (root, { f1 with cachedRoot := some root }, [], 1)

/-- The File.content property: no sentinel guards it, so every access simply
invokes the external text extractor afresh (count 1 on every call). -/
def File.content {γ : Type} (get_text : File → γ) (f : File) :
    γ × File × Nat :=
  (get_text f, f, 1)

/-- A DocxReader instance: the archive location, the archive bytes that
location designates on disk, and the three sentinel-guarded caches __zipf,
__files and __numId2NumFmts. -/
structure DocxReader where
  docx_filename : String
  diskEntries : List (ZipEntry × Bytes)
  zipf : Option ZipState
  files : Option (List File)
  numId2NumFmts : Option (List (String × List String))

/-- DocxReader.__init__: store the filename; every cache starts empty. -/
def DocxReader.init (name : String) (disk : List (ZipEntry × Bytes)) :
    DocxReader :=
  { docx_filename := name, diskEntries := disk, zipf := none, files := none,
    numId2NumFmts := none }

/-- The DocxReader.zipf property: return the cached handle, or open the
archive at docx_filename once. -/
def DocxReader.zipfGet (r : DocxReader) : ZipState × DocxReader × Nat :=
  match r.zipf with
  | some z => (z, r, 0)
  | none =>
    let z : ZipState := { entries := r.diskEntries, fpOpen := true, frees := 0 }
    (z, { r with zipf := some z }, 1)

/-- The DocxReader.files property: on a cache miss run collect_rels over the
archive and build one File per record of each rels file, with dir the
directory of that rels file. -/
def DocxReader.filesGet (ext : Externals) (r : DocxReader) :
    (List File) × DocxReader × Nat :=
  match r.files with
  | some fs => (fs, r, 0)
  | none =>
    let zr := DocxReader.zipfGet r
    let fs := (ext.collect_rels zr.1).foldl (fun acc kv =>
      acc ++ kv.2.map (fun x => File.ofRecord x (dirname kv.1))) []
    (fs, { zr.2.1 with files := some fs }, 1)

/-- The DocxReader.numId2numFmts property: on a cache miss read
word/numbering.xml and decode it with collect_numFmts; a KeyError (entry
absent) yields the empty mapping, a read on a closed handle propagates. -/
def DocxReader.numId2numFmts (ext : Externals) (r : DocxReader) :
    Except ReadErr ((List (String × List String)) × DocxReader × Nat) :=
  match r.numId2NumFmts with
  | some m => .ok (m, r, 0)
  | none =>
    let zr := DocxReader.zipfGet r
    match ZipState.read zr.1 ("word/numbering.xml") with
    | .error ReadErr.keyError => .ok ([], { zr.2.1 with numId2NumFmts := some [] }, 1)
    | .error ReadErr.closed => .error ReadErr.closed
    | .ok bs =>
      let m := ext.collect_numFmts (ext.fromstring bs)
      .ok (m, { zr.2.1 with numId2NumFmts := some m }, 1)

/-- Ascending order on the path property values, the key Python sorted is
called with in files_of_type. -/
def pathLe (a b : File) : Prop :=
  strLe (File.pathOf a) (File.pathOf b) = true

instance : DecidableRel pathLe :=
  fun a b => instDecidableEqBool (strLe (File.pathOf a) (File.pathOf b)) true

/-- Body of DocxReader.files_of_type on an already computed files list: keep
the files whose Type is in the requested set (all recognized content types
when no type is given) and sort ascending by the path property.  Python
sorted is a stable sort, and a stable sort with respect to a total preorder
is extensionally unique, so the stable insertion sort models it exactly. -/
def files_of_typeCalc (files : List File) (type_ : Option String) :
    List File :=
  let types := match type_ with
    | none => CONTENT_FILE_TYPES
    | some t => [t]
  (files.filter (fun x => decide (x.Type_ ∈ types))).insertionSort pathLe

/-- DocxReader.files_of_type: compute the files list (lazily) and select. -/
def DocxReader.files_of_type (ext : Externals) (r : DocxReader)
    (type_ : Option String) : (List File) × DocxReader :=
  let fr := DocxReader.filesGet ext r
  (files_of_typeCalc fr.1 type_, fr.2.1)

/-- DocxReader.content_files: files_of_type with no type argument. -/
def DocxReader.content_files (ext : Externals) (r : DocxReader) :
    (List File) × DocxReader :=
  DocxReader.files_of_type ext r none

/-- Warning text of DocxReader.file_of_type on an ambiguous lookup.  The
source passes a plain (not f-) string to warn, so the braces and the name
type_ appear literally in the emitted message. -/
def multipleWarningMsg : String :=
  "Multiple files of type \'\x7btype_\x7d\' found. Returning first."

/-- KeyError message of DocxReader.file_of_type on an empty lookup.  Only
the first of the two adjacent string literals in the source is an f-string,
so the requested type is interpolated but the archive name is not: the text
self.docx_filename stays between literal braces. -/
def keyErrorMsg (type_ : String) : String :=
  "There is no item of type \'" ++ type_ ++
    "\' in the \x7bself.docx_filename\x7d archive"

/-- DocxReader.file_of_type: the files of the type sorted by path; warn if
more than one, return the first, raise KeyError with keyErrorMsg if none. -/
def DocxReader.file_of_type (ext : Externals) (r : DocxReader)
    (type_ : String) : (Except String File) × DocxReader × (List String) :=
  let fr := DocxReader.files_of_type ext r (some type_)
  let warns := if fr.1.length > 1 then [multipleWarningMsg] else []
  match fr.1 with
  | [] => (.error (keyErrorMsg type_), fr.2, warns)
  | x :: _ => (.ok x, fr.2, warns)

/-- One entry of the archive save writes: either writestr(item, buffer) of a
copied source entry (metadata preserved, bytes as read) or writestr(path,
data) of a freshly serialized content part. -/
inductive OutEntry where
  | copied (item : ZipEntry) (buffer : Bytes)
  | written (path : String) (data : Bytes)

/-- The two ValueErrors the save path can raise, told apart by origin: a
failing read of the source handle (ValueError when it is closed, KeyError
when the name is absent), or a writestr on the already closed destination
handle. -/
inductive SaveErr where
  | read (e : ReadErr)
  | writeClosed

/-- The destination archive save writes into (zipfile.ZipFile(filename,
mode="w")): the entries written so far, in order, and whether the write
handle is still open. -/
structure ZipWriter where
  written : List OutEntry
  fpOpen : Bool

/-- ZipFile.writestr on the destination: refuse with ValueError once the
handle has been closed, else append the entry. -/
def ZipWriter.writestr (z : ZipWriter) (e : OutEntry) :
    Except SaveErr ZipWriter :=
  if z.fpOpen then .ok { written := z.written ++ [e], fpOpen := true }
  else .error SaveErr.writeClosed

/-- ZipFile.close on the destination. -/
def ZipWriter.close (z : ZipWriter) : ZipWriter :=
  { written := z.written, fpOpen := false }

/-- Loop of _copy_but: walk infolist order, skip excluded names, read each
kept entry back by name from the source handle and write it out with its
metadata; a failing read or write propagates, carrying the destination
state at the moment of the raise (the bytes already written stay in the
destination file). -/
def copyLoop (zin : ZipState) (exclusions : List String) :
    List (ZipEntry × Bytes) → ZipWriter →
    Except (SaveErr × ZipWriter) ZipWriter
  | [], zout => .ok zout
  | e :: rest, zout =>
    if e.1.filename ∈ exclusions then copyLoop zin exclusions rest zout
    else
      match ZipState.read zin e.1.filename with
      | .error err => .error (SaveErr.read err, zout)
      | .ok buf =>
        match ZipWriter.writestr zout (OutEntry.copied e.1 buf) with
        | .error err => .error (err, zout)
        | .ok zout1 => copyLoop zin exclusions rest zout1

/-- The function _copy_but, lines 400-416: copy every non-excluded source
entry, then close BOTH handles -- in_zip.close() on line 415 and
out_zip.close() on line 416 -- so after it returns neither the source can
be read nor the destination written. -/
def _copy_but (in_zip : ZipState) (out_zip : ZipWriter)
    (exclusions : List String) :
    Except (SaveErr × ZipWriter) (ZipState × ZipWriter) :=
  match copyLoop in_zip exclusions in_zip.entries out_zip with
  | .error e => .error e
  | .ok out1 => .ok (ZipState.close in_zip, ZipWriter.close out1)

/-- Content-part loop of DocxReader.save: for each content file in order,
take its root_element first (the argument of writestr: it reads the
archive on a cache miss -- the source handle is already closed by then) and
then writestr its serialization under its path into the destination --
whose handle _copy_but has also already closed, so the write raises. -/
def writeContentLoop (ext : Externals) (docx_filename : String)
    (zip : ZipState) :
    List File → ZipWriter →
    Except (SaveErr × ZipWriter) ((List File) × ZipWriter)
  | [], zout => .ok ([], zout)
  | f :: rest, zout =>
    match File.root_element ext docx_filename zip f with
    | .error e => .error (SaveErr.read e, zout)
    | .ok res =>
      match ZipWriter.writestr zout
          (OutEntry.written (File.pathOf res.2.1) (ext.tostring res.1)) with
      | .error e => .error (e, zout)
      | .ok zout1 =>
        match writeContentLoop ext docx_filename zip rest zout1 with
        | .error e => .error e
        | .ok p => .ok (res.2.1 :: p.1, p.2)

/-- Write the updated content File states back over the files list (in
Python the File objects in self.files are mutated in place, so the list and
the loop share them). -/
def updateFiles : List File → List File → List File
  | [], _ => []
  | f :: fs, updated =>
    if f.Type_ ∈ CONTENT_FILE_TYPES then
      match updated with
      | [] => f :: updateFiles fs []
      | u :: us => u :: updateFiles fs us
    else f :: updateFiles fs updated

/-- DocxReader.save, in source order: filter the content files out of the
files property, collect their paths as the exclusion set, open the
destination, run _copy_but (copy every non-excluded source entry, then
close both handles), and then try to write each content part's serialized
root_element under its path.  Success yields the reader state after save
and the finished destination; an exception yields the error and the
destination state at the moment of the raise. -/
def DocxReader.save (ext : Externals) (r0 : DocxReader) :
    Except (SaveErr × ZipWriter) (DocxReader × ZipWriter) :=
  let fr := DocxReader.filesGet ext r0
  let content_files := fr.1.filter (fun x => decide (x.Type_ ∈ CONTENT_FILE_TYPES))
  let exclusions := content_files.map File.pathOf
  let zout0 : ZipWriter := { written := [], fpOpen := true }
  let zr := DocxReader.zipfGet fr.2.1
  match _copy_but zr.1 zout0 exclusions with
  | .error e => .error e
  | .ok z2 =>
    let r2 := { zr.2.1 with zipf := some z2.1 }
    match writeContentLoop ext r2.docx_filename z2.1 content_files z2.2 with
    | .error e => .error e
    | .ok p =>
      .ok ({ r2 with files := some (updateFiles fr.1 p.1) }, p.2)

/-- Image loop of DocxReader.pull_image_files: for each image file (sorted
by path), read its bytes and store them under the basename of its Target;
suppress(KeyError) skips a missing entry, while a read on a closed handle
propagates. -/
def pullLoop (zip : ZipState) :
    List File → List (String × Bytes) → Except ReadErr (List (String × Bytes))
  | [], images => .ok images
  | x :: rest, images =>
    match ZipState.read zip (File.pathOf x) with
    | .ok bs => pullLoop zip rest (dictInsert images (basename x.Target) bs)
    | .error ReadErr.keyError => pullLoop zip rest images
    | .error ReadErr.closed => .error ReadErr.closed

/-- DocxReader.pull_image_files (without a destination directory, whose only
effect is writing the returned mapping out to disk): basenames of the image
Targets mapped to the archive bytes of the image paths. -/
def DocxReader.pull_image_files (ext : Externals) (r : DocxReader) :
    Except ReadErr ((List (String × Bytes)) × DocxReader) :=
  let fr := DocxReader.files_of_type ext r (some ("image"))
  let zr := DocxReader.zipfGet fr.2
  match pullLoop zr.1 fr.1 [] with
  | .error e => .error e
  | .ok images => .ok (images, zr.2.1)

/-- Concrete values used by the witnesses and counterexamples below: a
sample parsed tree, a distinct tree standing for a partially mutated one,
sample externals, files, archives and readers. -/
def exTreeA : Tree := Tree.node ("document") [] []

/-- A tree distinct from exTreeA (their tags differ), standing for the
partially mutated state a failing merge_elems leaves behind. -/
def exTreeB : Tree := Tree.node ("mutated") [] []

/-- Benign externals: parsing always yields exTreeA, serialization is the
length of the tag, merging succeeds and changes nothing, the collectors
return empty tables. -/
def exExternals : Externals :=
  { fromstring := fun _ => exTreeA, tostring := fun t => [(Tree.tag t).length],
    merge_elems := fun t => MergeOutcome.done t,
    collect_rels := fun _ => [], collect_numFmts := fun _ => [] }

/-- Externals whose merge_elems mutates the tree to exTreeB and then raises
(outcome raised), for exercising the root_element fallback path. -/
def exExtMergeFail : Externals :=
  { exExternals with
    merge_elems := fun _ => MergeOutcome.raised exTreeB ("ValueError()") }

/-- The officeDocument part as declared in _rels/.rels. -/
def exDocFile : File :=
  File.ofRecord
    (RelRecord.mk ("rId1") ("http://s/officeDocument") ("word/document.xml"))
    ("_rels")

/-- The officeDocument part with its XML root already decoded and cached. -/
def exDocFileCached : File := { exDocFile with cachedRoot := some exTreeA }

/-- A header part declared in word/_rels/document.xml.rels. -/
def exHeader1 : File :=
  File.ofRecord (RelRecord.mk ("rId2") ("http://s/header") ("header1.xml"))
    ("word/_rels")

/-- A second header part. -/
def exHeader2 : File :=
  File.ofRecord (RelRecord.mk ("rId3") ("http://s/header") ("header2.xml"))
    ("word/_rels")

/-- An image part stored at word/media/image1.png. -/
def exImage1 : File :=
  File.ofRecord
    (RelRecord.mk ("rId4") ("http://s/image") ("media/image1.png"))
    ("word/_rels")

/-- An image part stored at word/media2/image1.png: a distinct storage path
whose Target has the same basename image1.png as exImage1. -/
def exImage2 : File :=
  File.ofRecord
    (RelRecord.mk ("rId5") ("http://s/image") ("media2/image1.png"))
    ("word/_rels")

/-- An open archive holding just the main document part. -/
def exZipDoc : ZipState :=
  { entries := [({ filename := "word/document.xml", meta := 0 }, [10, 20])],
    fpOpen := true, frees := 0 }

/-- An open archive holding the main document and a styles part. -/
def exZipTwo : ZipState :=
  { entries := [({ filename := "word/document.xml", meta := 0 }, [10, 20]),
                ({ filename := "word/styles.xml", meta := 1 }, [30])],
    fpOpen := true, frees := 0 }

/-- An open archive holding both image entries (and no numbering part). -/
def exZipImages : ZipState :=
  { entries := [({ filename := "word/media/image1.png", meta := 0 }, [1]),
                ({ filename := "word/media2/image1.png", meta := 1 }, [2])],
    fpOpen := true, frees := 0 }

/-- A reader that has never touched its archive (every cache empty). -/
def exReaderNever : DocxReader := DocxReader.init ("never.docx") []

/-- A reader whose archive handle is open on exZipDoc. -/
def exReaderOpened : DocxReader :=
  { docx_filename := "example.docx", diskEntries := exZipDoc.entries,
    zipf := some exZipDoc, files := none, numId2NumFmts := none }

/-- A reader with two header parts enumerated (out of path order, so sorting
is visible) and nothing else. -/
def exReaderTwoHeaders : DocxReader :=
  { docx_filename := "example.docx", diskEntries := [], zipf := none,
    files := some [exHeader2, exHeader1], numId2NumFmts := none }

/-- A reader with an enumerated but wholly undecoded officeDocument part,
over an archive with a styles entry besides the document. -/
def exReaderUncached : DocxReader :=
  { docx_filename := "example.docx", diskEntries := exZipTwo.entries,
    zipf := none, files := some [exDocFile], numId2NumFmts := none }

/-- The reader of exReaderUncached with the document root already cached. -/
def exReaderCached : DocxReader :=
  { docx_filename := "example.docx", diskEntries := exZipTwo.entries,
    zipf := some exZipTwo, files := some [exDocFileCached],
    numId2NumFmts := none }

/-- A reader holding the two like-named image parts (listed out of path
order) over the archive exZipImages. -/
def exReaderImages : DocxReader :=
  { docx_filename := "example.docx", diskEntries := exZipImages.entries,
    zipf := some exZipImages, files := some [exImage2, exImage1],
    numId2NumFmts := none }

/-- Text extractor stand-in for the content property examples. -/
def exGetText : File → Nat := fun _ => 0

/-- An open archive holding only the first image entry (the second image
part of exReaderImages has no entry here). -/
def exZipImagesOne : ZipState :=
  { entries := [({ filename := "word/media/image1.png", meta := 0 }, [1])],
    fpOpen := true, frees := 0 }

/-- The header part after its rels lookup found no rels entry: path and
rels path cached, rels cached empty. -/
def exH1RelsCached : File :=
  { exHeader1 with
    cachedPath := some ("word/header1.xml")
    cachedRelsPath := some ("word/_rels/header1.xml.rels")
    cachedRels := some [] }

/-- The officeDocument part after its first root_element call under the
benign externals: path and root cached. -/
def exDocRootCached : File :=
  { exDocFile with
    cachedPath := some ("word/document.xml")
    cachedRoot := some exTreeA }

/-- The opened reader after numId2numFmts found no numbering part. -/
def exReaderNumCached : DocxReader :=
  { exReaderOpened with numId2NumFmts := some [] }

/-- Message of the AttributeError DocxReader.close raises when the private
attribute __zipf is still None (None has no close method). -/
def attributeErrorMsg : String :=
  "AttributeError: NoneType object has no attribute close"

/-- DocxReader.close: self.__zipf.close() on the private attribute directly,
so a reader that never opened the archive raises AttributeError, and one
that did delegates to ZipFile.close. -/
def DocxReader.close (r : DocxReader) : Except String DocxReader :=
  match r.zipf with
  | none => .error attributeErrorMsg
  | some z => .ok { r with zipf := some (ZipState.close z) }

/-- Helper lemmas on the Python string order. -/
theorem charListLe_refl (l : List Char) : charListLe l l = true := by
  induction l with
  | nil => rfl
  | cons a as ih => simp [charListLe, ih]

theorem strLe_refl (s : String) : strLe s s = true := charListLe_refl s.data

theorem charListLe_total (a b : List Char) :
    charListLe a b = true ∨ charListLe b a = true := by
  induction a generalizing b with
  | nil => left; rfl
  | cons x xs ih =>
    cases b with
    | nil => right; rfl
    | cons y ys =>
      by_cases hxy : x.toNat < y.toNat
      · left; simp [charListLe, hxy]
      · by_cases hyx : y.toNat < x.toNat
        · right; simp [charListLe, hyx]
        · rcases ih ys with h | h
          · left; simp [charListLe, hxy, hyx, h]
          · right; simp [charListLe, hxy, hyx, h]

theorem strLe_total (a b : String) :
    strLe a b = true ∨ strLe b a = true := charListLe_total a.data b.data

theorem charListLe_trans {a b c : List Char} (hab : charListLe a b = true)
    (hbc : charListLe b c = true) : charListLe a c = true := by
  induction a generalizing b c with
  | nil => rfl
  | cons x xs ih =>
    cases b with
    | nil => simp [charListLe] at hab
    | cons y ys =>
      cases c with
      | nil => simp [charListLe] at hbc
      | cons z zs =>
        simp only [charListLe] at hab hbc ⊢
        by_cases hxy : x.toNat < y.toNat
        · by_cases hyz : y.toNat < z.toNat
          · have hxz : x.toNat < z.toNat := by omega
            simp [hxz]
          · by_cases hzy : z.toNat < y.toNat
            · simp [hyz, hzy] at hbc
            · have hxz : x.toNat < z.toNat := by omega
              simp [hxz]
        · by_cases hyx : y.toNat < x.toNat
          · simp [hxy, hyx] at hab
          · by_cases hyz : y.toNat < z.toNat
            · have hxz : x.toNat < z.toNat := by omega
              simp [hxz]
            · by_cases hzy : z.toNat < y.toNat
              · simp [hyz, hzy] at hbc
              · have hxz : ¬ x.toNat < z.toNat := by omega
                have hzx : ¬ z.toNat < x.toNat := by omega
                simp only [hxy, hyx, if_false, if_neg] at hab
                simp only [hyz, hzy, if_false, if_neg] at hbc
                simp [hxz, hzx, ih hab hbc]

theorem strLe_trans {a b c : String} (hab : strLe a b = true)
    (hbc : strLe b c = true) : strLe a c = true :=
  charListLe_trans hab hbc

theorem charListLe_antisymm {a b : List Char} (hab : charListLe a b = true)
    (hba : charListLe b a = true) : a = b := by
  induction a generalizing b with
  | nil =>
    cases b with
    | nil => rfl
    | cons y ys => simp [charListLe] at hba
  | cons x xs ih =>
    cases b with
    | nil => simp [charListLe] at hab
    | cons y ys =>
      simp only [charListLe] at hab hba
      by_cases hxy : x.toNat < y.toNat
      · have hyx : ¬ y.toNat < x.toNat := by omega
        simp [hxy, hyx] at hba
      · by_cases hyx : y.toNat < x.toNat
        · simp [hxy, hyx] at hab
        · have hn : x.toNat = y.toNat := by omega
          have hx : x = y := Char.ext (UInt32.ext hn)
          simp only [hxy, hyx, if_false, if_neg] at hab hba
          rw [hx, ih hab hba]

theorem strLe_antisymm {a b : String} (hab : strLe a b = true)
    (hba : strLe b a = true) : a = b := by
  cases a with
  | mk da =>
    cases b with
    | mk db => exact congrArg String.mk (charListLe_antisymm hab hba)

/-- ZipFile.close is idempotent: closing a closed handle changes nothing. -/
theorem ZipState.close_close (z : ZipState) :
    ZipState.close (ZipState.close z) = ZipState.close z := by
  by_cases h : z.fpOpen <;> simp [ZipState.close, h]

/-- After close the file pointer is released. -/
theorem ZipState.fpOpen_close (z : ZipState) :
    (ZipState.close z).fpOpen = false := by
  by_cases h : z.fpOpen <;> simp [ZipState.close, h]

/-- One call to close releases the pointer at most once. -/
theorem ZipState.frees_close (z : ZipState) :
    (ZipState.close z).frees ≤ z.frees + 1 := by
  by_cases h : z.fpOpen <;> simp [ZipState.close, h]

/-- C3: for every pair (dir, target), the path property returns the string
obtained by joining the non-empty directory portions of dir and of target
with a slash and then appending a slash and the basename of target (the
wording of the specification, proved equal to the translated source
computation); a repeated call returns the identical cached string with no
recomputation; and the result depends on nothing but the dir, Target and
cache attributes -- the getter takes no archive argument at all, so the
computation cannot read archive contents. -/
theorem path_pure_deterministic (d t : String) (f : File)
    (hd : f.dir = d) (ht : f.Target = t) (hc : f.cachedPath = none) :
    (File.path f).1 =
      pyJoin ("/") (([dirname d, dirname t]).filter (fun x => x ≠ "")) ++
        "/" ++ basename t ∧
    File.path (File.path f).2.1 = ((File.path f).1, (File.path f).2.1, 0) ∧
    (∀ g : File, g.dir = f.dir → g.Target = f.Target →
      g.cachedPath = f.cachedPath → (File.path g).1 = (File.path f).1) := by
  refine ⟨?_, ?_, ?_⟩
  · simp [File.path, hc, File.pathCalc, hd, ht, pyJoin]
  · simp [File.path, hc]
  · intro g h1 h2 h3
    have hgc : g.cachedPath = none := h3.trans hc
    simp [File.path, hc, hgc, File.pathCalc, h1, h2]

/-- Witness for C3 at the header part declared in word/_rels: the computed
path is word/header1.xml and the second call hits the cache. -/
theorem path_pure_deterministic_witness :
    (File.path exHeader1).1 = "word/header1.xml" ∧
    File.path (File.path exHeader1).2.1 =
      ((File.path exHeader1).1, (File.path exHeader1).2.1, 0) := by
  have h := path_pure_deterministic ("word/_rels") ("header1.xml")
    exHeader1 rfl rfl rfl
  refine ⟨?_, h.2.1⟩
  rw [h.1]
  rfl

set_option maxRecDepth 8000 in
/-- C4, evidence of the code bug at a concrete failing input: file_of_type
on a type with zero matches raises KeyError, and the message interpolates
the requested type but not the archive name -- only the first of the two
adjacent string literals in the source carries the f prefix, so the text
self.docx_filename stays literal between braces and the name example.docx
of the archive appears nowhere in the message. -/
theorem file_of_type_zero_message_lacks_archive :
    (DocxReader.file_of_type exExternals exReaderTwoHeaders
        ("invalid_type")).1 = Except.error (keyErrorMsg ("invalid_type")) ∧
    keyErrorMsg ("invalid_type") =
      "There is no item of type \'invalid_type\' in the \x7bself.docx_filename\x7d archive" ∧
    exReaderTwoHeaders.docx_filename = "example.docx" ∧
    ¬ (exReaderTwoHeaders.docx_filename).data <:+:
        (keyErrorMsg ("invalid_type")).data ∧
    ("invalid_type").data <:+: (keyErrorMsg ("invalid_type")).data := by
  refine ⟨rfl, rfl, rfl, by decide, by decide⟩

/-- C9 counterexample: on a Package that never acquired the archive handle,
close() raises AttributeError (None has no close attribute); the failing
call leaves the reader unchanged, so the second call of the claim -- from
explicit teardown or from the destruction path, which runs the same
self.__zipf.close() -- fails identically, refuting the claim as stated for
every Package. -/
theorem close_unopened_raises :
    DocxReader.close exReaderNever = Except.error attributeErrorMsg := rfl

/-- C9 amended: on every Package whose archive handle has been acquired,
close is idempotent: after a first successful close, a second close
succeeds and returns the very same state, the pointer ends released, and
across both calls it was released at most once (no double free). -/
theorem close_idempotent_once_opened (r r1 : DocxReader)
    (h : DocxReader.close r = Except.ok r1) :
    DocxReader.close r1 = Except.ok r1 ∧
    (∀ z, r.zipf = some z →
      ∃ z1, r1.zipf = some z1 ∧ z1.fpOpen = false ∧
        z1.frees ≤ z.frees + 1 ∧ ZipState.close z1 = z1) := by
  cases hz : r.zipf with
  | none => simp [DocxReader.close, hz] at h
  | some z =>
    simp only [DocxReader.close, hz, Except.ok.injEq] at h
    subst h
    constructor
    · simp [DocxReader.close, ZipState.close_close]
    · intro z0 hz0
      have hzz : z0 = z := (Option.some.inj hz0).symm
      subst hzz
      exact ⟨ZipState.close z0, rfl, ZipState.fpOpen_close z0,
        ZipState.frees_close z0, ZipState.close_close z0⟩

/-- Witness for C9 at a reader whose handle is open on exZipDoc. -/
theorem close_idempotent_once_opened_witness :
    DocxReader.close exReaderOpened =
      Except.ok { exReaderOpened with zipf := some (ZipState.close exZipDoc) } ∧
    DocxReader.close
        { exReaderOpened with zipf := some (ZipState.close exZipDoc) } =
      Except.ok { exReaderOpened with zipf := some (ZipState.close exZipDoc) } := by
  have h := close_idempotent_once_opened exReaderOpened
    { exReaderOpened with zipf := some (ZipState.close exZipDoc) } rfl
  exact ⟨rfl, h.1⟩

/-- C2, evidence of the code bug at a concrete failing input: with a
merge_elems that mutates the tree to exTreeB and then raises, root_element
swallows the exception and emits the warning naming the archive and the
part path -- but the tree it returns and caches is the mutated exTreeB, not
the pre-transform copy exTreeA: the fallback assignment of the copy inside
the except clause is dead, overwritten by the unconditional assignment of
root on the line after it. -/
theorem root_element_merge_failure_caches_mutated :
    File.root_element exExtMergeFail ("example.docx") exZipDoc exDocFile =
      Except.ok (exTreeB,
        { exDocFile with
          cachedPath := some ("word/document.xml")
          cachedRoot := some exTreeB },
        [mergeWarning ("example.docx") ("word/document.xml") ("ValueError()")],
        1) ∧
    Tree.tag exTreeB ≠ Tree.tag exTreeA := by
  exact ⟨rfl, by decide⟩

/-- The path order is reflexive. -/
theorem pathLe_refl (x : File) : pathLe x x := strLe_refl _

/-- The selection of files_of_type is sorted with respect to the path
order. -/
theorem files_of_typeCalc_sorted (files : List File) (t : Option String) :
    List.Sorted pathLe (files_of_typeCalc files t) := by
  haveI : IsTotal File pathLe := ⟨fun a b => strLe_total _ _⟩
  haveI : IsTrans File pathLe := ⟨fun a b c hab hbc => strLe_trans hab hbc⟩
  simp only [files_of_typeCalc]
  exact List.sorted_insertionSort pathLe _

/-- The selection of files_of_type for one type is a permutation of the
plain filter on that type. -/
theorem files_of_typeCalc_some_perm (files : List File) (t : String) :
    List.Perm (files_of_typeCalc files (some t))
      (files.filter (fun x => decide (x.Type_ = t))) := by
  have h1 : files.filter (fun x => decide (x.Type_ ∈ [t])) =
      files.filter (fun x => decide (x.Type_ = t)) := by
    apply List.filter_congr
    intro x _
    simp
  have h2 := List.perm_insertionSort pathLe
    (files.filter (fun x => decide (x.Type_ ∈ [t])))
  rw [h1] at h2
  simpa [files_of_typeCalc] using h2

/-- The head of a list sorted by the path order has the least path. -/
theorem sorted_head_min {x : File} {xs : List File}
    (h : List.Sorted pathLe (x :: xs)) : ∀ y ∈ x :: xs, pathLe x y := by
  intro y hy
  rcases List.mem_cons.mp hy with h1 | h1
  · rw [h1]; exact pathLe_refl x
  · exact (List.sorted_cons.mp h).1 y h1

/-- C5: whenever at least one part of the requested type exists,
file_of_type returns a matching part whose storage path is least with
respect to the path order among all matching parts, and the ambiguity
warning is emitted exactly when more than one part matches. -/
theorem file_of_type_first_match (ext : Externals) (r : DocxReader)
    (t : String)
    (h : 0 < ((DocxReader.filesGet ext r).1.filter
        (fun y => decide (y.Type_ = t))).length) :
    ∃ x, (DocxReader.file_of_type ext r t).1 = Except.ok x ∧
      x ∈ (DocxReader.filesGet ext r).1 ∧ x.Type_ = t ∧
      (∀ y ∈ (DocxReader.filesGet ext r).1, y.Type_ = t → pathLe x y) ∧
      ((DocxReader.file_of_type ext r t).2.2 = [multipleWarningMsg] ↔
        1 < ((DocxReader.filesGet ext r).1.filter
          (fun y => decide (y.Type_ = t))).length) := by
  have hperm := files_of_typeCalc_some_perm (DocxReader.filesGet ext r).1 t
  have hlen := hperm.length_eq
  have hSne : files_of_typeCalc (DocxReader.filesGet ext r).1 (some t) ≠ [] := by
    intro hnil
    rw [hnil] at hlen
    simp only [List.length_nil] at hlen
    omega
  obtain ⟨x, xs, hcons⟩ := List.exists_cons_of_ne_nil hSne
  have hfot : DocxReader.file_of_type ext r t =
      (Except.ok x, (DocxReader.filesGet ext r).2.1,
        if (files_of_typeCalc (DocxReader.filesGet ext r).1 (some t)).length > 1
          then [multipleWarningMsg] else []) := by
    simp only [DocxReader.file_of_type, DocxReader.files_of_type]
    split
    next heq => exact absurd heq hSne
    next y ys heq =>
      rw [hcons] at heq
      injection heq with h1 h2
      rw [h1]
  have hxS : x ∈ files_of_typeCalc (DocxReader.filesGet ext r).1 (some t) := by
    rw [hcons]; exact List.mem_cons_self x xs
  have hxfil := hperm.mem_iff.mp hxS
  have hxfil2 := List.mem_filter.mp hxfil
  refine ⟨x, ?_, hxfil2.1, of_decide_eq_true hxfil2.2, ?_, ?_⟩
  · rw [hfot]
  · intro y hy hyt
    have hyfil : y ∈ (DocxReader.filesGet ext r).1.filter
        (fun y => decide (y.Type_ = t)) :=
      List.mem_filter.mpr ⟨hy, decide_eq_true hyt⟩
    have hyS := hperm.mem_iff.mpr hyfil
    have hsorted := files_of_typeCalc_sorted (DocxReader.filesGet ext r).1 (some t)
    rw [hcons] at hyS hsorted
    exact sorted_head_min hsorted y hyS
  · rw [hfot]
    simp only [gt_iff_lt]
    rw [hlen]
    by_cases hgt : 1 < ((DocxReader.filesGet ext r).1.filter
        (fun y => decide (y.Type_ = t))).length
    · simp [hgt]
    · simp [hgt]

/-- Witness for C5: on a reader with header2 listed before header1, the
lookup returns the part at word/header1.xml and warns about ambiguity. -/
theorem file_of_type_first_match_witness :
    (0 < ((DocxReader.filesGet exExternals exReaderTwoHeaders).1.filter
        (fun y => decide (y.Type_ = ("header")))).length) ∧
    ∃ x, (DocxReader.file_of_type exExternals exReaderTwoHeaders
        ("header")).1 = Except.ok x ∧
      x ∈ (DocxReader.filesGet exExternals exReaderTwoHeaders).1 ∧
      x.Type_ = "header" ∧
      (∀ y ∈ (DocxReader.filesGet exExternals exReaderTwoHeaders).1,
        y.Type_ = "header" → pathLe x y) ∧
      ((DocxReader.file_of_type exExternals exReaderTwoHeaders
          ("header")).2.2 = [multipleWarningMsg] ↔
        1 < ((DocxReader.filesGet exExternals exReaderTwoHeaders).1.filter
          (fun y => decide (y.Type_ = ("header")))).length) :=
  ⟨by decide, file_of_type_first_match exExternals exReaderTwoHeaders
    ("header") (by decide)⟩

/-- On an open handle a read never fails with the closed-handle error. -/
theorem read_open_ne_closed {zip : ZipState} {nm : String}
    (hopen : zip.fpOpen = true) :
    ZipState.read zip nm ≠ Except.error ReadErr.closed := by
  simp only [ZipState.read, hopen, if_true]
  split <;> simp

/-- C7: absence of an optional resource is never an error: when the rels
sibling entry is absent the rels property of an undecoded part yields the
empty mapping; when word/numbering.xml is absent numId2numFmts yields the
empty mapping; and the image loop of pull_image_files over an open handle
computes the same mapping as over only the image parts whose archive entry
is readable -- a missing image entry is silently skipped and the rest are
still returned. -/
theorem missing_optional_resources (ext : Externals) (zip : ZipState)
    (f : File) (r : DocxReader) :
    (f.cachedRels = none →
      ZipState.read zip (File.rels_path f).1 = Except.error ReadErr.keyError →
      ∃ f1, File.rels ext zip f = Except.ok ([], f1, 1)) ∧
    (r.numId2NumFmts = none →
      ZipState.read (DocxReader.zipfGet r).1 ("word/numbering.xml") =
        Except.error ReadErr.keyError →
      ∃ r1, DocxReader.numId2numFmts ext r = Except.ok ([], r1, 1)) ∧
    (zip.fpOpen = true → ∀ imgs acc,
      pullLoop zip imgs acc =
        pullLoop zip (imgs.filter (fun x =>
          (ZipState.read zip (File.pathOf x)).isOk)) acc) := by
  refine ⟨?_, ?_, ?_⟩
  · intro hc hread
    simp only [File.rels, hc, hread]
    exact ⟨_, rfl⟩
  · intro hc hread
    simp only [DocxReader.numId2numFmts, hc, hread]
    exact ⟨_, rfl⟩
  · intro hopen imgs
    induction imgs with
    | nil => intro acc; rfl
    | cons x rest ih =>
      intro acc
      cases hread : ZipState.read zip (File.pathOf x) with
      | ok bs =>
        simp only [pullLoop, hread, List.filter_cons, Except.isOk, Except.toBool,
          if_true]
        exact ih (dictInsert acc (basename x.Target) bs)
      | error e =>
        cases e with
        | closed => exact absurd hread (read_open_ne_closed hopen)
        | keyError =>
          simp only [pullLoop, hread, List.filter_cons, Except.isOk,
            Except.toBool, if_false]
          exact ih acc

/-- Witness for C7: the header has no rels entry in the one-image archive,
the opened reader has no numbering part, and of the two like-named image
parts only the first has an archive entry. -/
theorem missing_optional_resources_witness :
    (∃ f1, File.rels exExternals exZipImagesOne exHeader1 =
      Except.ok ([], f1, 1)) ∧
    (∃ r1, DocxReader.numId2numFmts exExternals exReaderOpened =
      Except.ok ([], r1, 1)) ∧
    pullLoop exZipImagesOne [exImage1, exImage2] [] =
      pullLoop exZipImagesOne ([exImage1, exImage2].filter (fun x =>
        (ZipState.read exZipImagesOne (File.pathOf x)).isOk)) [] := by
  have h := missing_optional_resources exExternals exZipImagesOne exHeader1
    exReaderOpened
  exact ⟨h.1 rfl rfl, h.2.1 rfl rfl, h.2.2 rfl [exImage1, exImage2] []⟩

/-- C6 amended: every sentinel-guarded cache is memoize-once-forever: for
path, rels path, rels mapping, XML root, archive handle, numbering table
and part list, a second access right after a first returns the very same
value and state with zero recomputation, whatever the externals, archive
or archive name look like by the second call (no invalidation ever).  The
content property is the one value of the claim's list this does not cover:
it is not cached (see the counterexample theorem). -/
theorem cached_values_memoized_once (ext ext2 : Externals)
    (docx1 docx2 : String) (zip zip2 : ZipState) (f : File) (r : DocxReader) :
    (File.path (File.path f).2.1 = ((File.path f).1, (File.path f).2.1, 0)) ∧
    (File.rels_path (File.rels_path f).2.1 =
      ((File.rels_path f).1, (File.rels_path f).2.1, 0)) ∧
    (∀ m f1 n, File.rels ext zip f = Except.ok (m, f1, n) →
      File.rels ext2 zip2 f1 = Except.ok (m, f1, 0)) ∧
    (∀ tr f1 w n,
      File.root_element ext docx1 zip f = Except.ok (tr, f1, w, n) →
      File.root_element ext2 docx2 zip2 f1 = Except.ok (tr, f1, [], 0)) ∧
    (DocxReader.zipfGet (DocxReader.zipfGet r).2.1 =
      ((DocxReader.zipfGet r).1, (DocxReader.zipfGet r).2.1, 0)) ∧
    (DocxReader.filesGet ext2 (DocxReader.filesGet ext r).2.1 =
      ((DocxReader.filesGet ext r).1, (DocxReader.filesGet ext r).2.1, 0)) ∧
    (∀ m r1 n, DocxReader.numId2numFmts ext r = Except.ok (m, r1, n) →
      DocxReader.numId2numFmts ext2 r1 = Except.ok (m, r1, 0)) := by
  refine ⟨?_, ?_, ?_, ?_, ?_, ?_, ?_⟩
  · cases hc : f.cachedPath <;> simp [File.path, hc]
  · cases hc : f.cachedRelsPath <;> simp [File.rels_path, hc]
  · intro m f1 n h
    cases hc : f.cachedRels with
    | some m0 =>
      simp only [File.rels, hc, Except.ok.injEq, Prod.mk.injEq] at h
      obtain ⟨h1, h2, h3⟩ := h
      subst h1; subst h2
      simp [File.rels, hc]
    | none =>
      simp only [File.rels, hc] at h
      split at h
      · simp only [Except.ok.injEq, Prod.mk.injEq] at h
        obtain ⟨h1, h2, h3⟩ := h
        subst h1; subst h2
        simp [File.rels]
      · exact absurd h (by simp)
      · split at h <;>
        · simp only [Except.ok.injEq, Prod.mk.injEq] at h
          obtain ⟨h1, h2, h3⟩ := h
          subst h1; subst h2
          simp [File.rels]
  · intro tr f1 w n h
    cases hc : f.cachedRoot with
    | some t0 =>
      simp only [File.root_element, hc, Except.ok.injEq, Prod.mk.injEq] at h
      obtain ⟨h1, h2, h3, h4⟩ := h
      subst h1; subst h2
      simp [File.root_element, hc]
    | none =>
      simp only [File.root_element, hc] at h
      split at h
      · exact absurd h (by simp)
      · split at h
        · split at h <;>
          · simp only [Except.ok.injEq, Prod.mk.injEq] at h
            obtain ⟨h1, h2, h3, h4⟩ := h
            subst h1; subst h2
            simp [File.root_element]
        · simp only [Except.ok.injEq, Prod.mk.injEq] at h
          obtain ⟨h1, h2, h3, h4⟩ := h
          subst h1; subst h2
          simp [File.root_element]
  · cases hc : r.zipf <;> simp [DocxReader.zipfGet, hc]
  · cases hc : r.files <;> simp [DocxReader.filesGet, hc]
  · intro m r1 n h
    cases hc : r.numId2NumFmts with
    | some m0 =>
      simp only [DocxReader.numId2numFmts, hc, Except.ok.injEq,
        Prod.mk.injEq] at h
      obtain ⟨h1, h2, h3⟩ := h
      subst h1; subst h2
      simp [DocxReader.numId2numFmts, hc]
    | none =>
      simp only [DocxReader.numId2numFmts, hc] at h
      split at h
      · simp only [Except.ok.injEq, Prod.mk.injEq] at h
        obtain ⟨h1, h2, h3⟩ := h
        subst h1; subst h2
        simp [DocxReader.numId2numFmts]
      · exact absurd h (by simp)
      · simp only [Except.ok.injEq, Prod.mk.injEq] at h
        obtain ⟨h1, h2, h3⟩ := h
        subst h1; subst h2
        simp [DocxReader.numId2numFmts]

/-- C6 counterexample: the content property has no cache: a second access
immediately after a first still invokes the external text extractor (its
computation count is 1, not 0 as for every cached getter), so content as
listed in the claim is not computed at most once per instance. -/
theorem content_not_cached :
    (File.content exGetText (File.content exGetText exHeader1).2.1).2.2 = 1 ∧
    (File.content exGetText (File.content exGetText exHeader1).2.1).2.2 ≠ 0 := by
  exact ⟨rfl, by decide⟩

/-- Witness for C6 at concrete parts and readers: the second calls of rels,
root_element and numId2numFmts return the cached value unchanged with zero
recomputation, even on a closed archive and different externals. -/
theorem cached_values_memoized_once_witness :
    File.rels exExtMergeFail (ZipState.close exZipImagesOne) exH1RelsCached =
      Except.ok ([], exH1RelsCached, 0) ∧
    File.root_element exExtMergeFail ("other.docx")
      (ZipState.close exZipImagesOne) exDocRootCached =
      Except.ok (exTreeA, exDocRootCached, [], 0) ∧
    DocxReader.numId2numFmts exExtMergeFail exReaderNumCached =
      Except.ok ([], exReaderNumCached, 0) := by
  have h := cached_values_memoized_once exExternals exExtMergeFail
    ("example.docx") ("other.docx") exZipImagesOne
    (ZipState.close exZipImagesOne) exHeader1 exReaderOpened
  have h2 := cached_values_memoized_once exExternals exExtMergeFail
    ("example.docx") ("other.docx") exZipDoc
    (ZipState.close exZipImagesOne) exDocFile exReaderOpened
  exact ⟨h.2.2.1 [] exH1RelsCached 1 rfl,
    h2.2.2.2.1 exTreeA exDocRootCached [] 1 rfl,
    h.2.2.2.2.2.2 [] exReaderNumCached 1 rfl⟩

/-- A filter on the disjunction of two disjoint predicates counts as the
sum of the two separate filters. -/
theorem length_filter_or (l : List File) (p q : File → Bool)
    (hdisj : ∀ x, ¬ (p x = true ∧ q x = true)) :
    (l.filter (fun x => p x || q x)).length =
      (l.filter p).length + (l.filter q).length := by
  induction l with
  | nil => simp
  | cons a as ih =>
    by_cases hp : p a = true
    · have hq : ¬ q a = true := fun h => hdisj a ⟨hp, h⟩
      simp [List.filter_cons, hp, hq, ih]
      omega
    · by_cases hq : q a = true <;> simp [List.filter_cons, hp, hq, ih] <;> omega

/-- Counting a membership filter against a duplicate-free list of types
splits into the per-type counts. -/
theorem length_filter_mem_eq_sum (l : List File) :
    ∀ ts : List String, ts.Nodup →
      (l.filter (fun x => decide (x.Type_ ∈ ts))).length =
        (ts.map (fun t =>
          (l.filter (fun x => decide (x.Type_ = t))).length)).sum := by
  intro ts
  induction ts with
  | nil => intro _; simp
  | cons t ts ih =>
    intro hnd
    have hnd2 := List.nodup_cons.mp hnd
    have hcongr : l.filter (fun x => decide (x.Type_ ∈ t :: ts)) =
        l.filter (fun x => decide (x.Type_ = t) || decide (x.Type_ ∈ ts)) := by
      apply List.filter_congr
      intro x _
      simp [List.mem_cons]
    have hdisj : ∀ x : File,
        ¬ (decide (x.Type_ = t) = true ∧ decide (x.Type_ ∈ ts) = true) := by
      intro x hx
      obtain ⟨h1, h2⟩ := hx
      have ht1 := of_decide_eq_true h1
      have ht2 := of_decide_eq_true h2
      rw [ht1] at ht2
      exact hnd2.1 ht2
    rw [hcongr, length_filter_or l _ _ hdisj, ih hnd2.2]
    simp

/-- C8: files_of_type with no type argument returns exactly the parts whose
type is one of the five recognized content types (a permutation of the
membership filter), sorted ascending by storage path, and its length is the
sum over those five types of the lengths of the per-type selections. -/
theorem files_of_type_none_content (ext : Externals) (r : DocxReader) :
    List.Perm (DocxReader.files_of_type ext r none).1
      ((DocxReader.filesGet ext r).1.filter
        (fun x => decide (x.Type_ ∈ CONTENT_FILE_TYPES))) ∧
    List.Sorted pathLe (DocxReader.files_of_type ext r none).1 ∧
    (DocxReader.files_of_type ext r none).1.length =
      (CONTENT_FILE_TYPES.map (fun t =>
        (DocxReader.files_of_type ext r (some t)).1.length)).sum := by
  have hperm : List.Perm (DocxReader.files_of_type ext r none).1
      ((DocxReader.filesGet ext r).1.filter
        (fun x => decide (x.Type_ ∈ CONTENT_FILE_TYPES))) := by
    simpa [DocxReader.files_of_type, files_of_typeCalc] using
      List.perm_insertionSort pathLe
        ((DocxReader.filesGet ext r).1.filter
          (fun x => decide (x.Type_ ∈ CONTENT_FILE_TYPES)))
  refine ⟨hperm, files_of_typeCalc_sorted _ none, ?_⟩
  have hlen := hperm.length_eq
  rw [hlen, length_filter_mem_eq_sum _ CONTENT_FILE_TYPES (by decide)]
  have harms : ∀ t : String, (DocxReader.files_of_type ext r (some t)).1.length
      = ((DocxReader.filesGet ext r).1.filter
        (fun x => decide (x.Type_ = t))).length := by
    intro t
    exact (files_of_typeCalc_some_perm (DocxReader.filesGet ext r).1 t).length_eq
  simp [CONTENT_FILE_TYPES, harms]

/-- A successful read means the handle is open. -/
theorem read_ok_open {zip : ZipState} {nm : String} {v : Bytes}
    (h : ZipState.read zip nm = Except.ok v) : zip.fpOpen = true := by
  by_cases hopen : zip.fpOpen
  · exact hopen
  · simp [ZipState.read, hopen] at h

/-- The last element of a cons: the last of the tail, else the head. -/
theorem getLast?_cons_or {α : Type} (a : α) (l : List α) :
    (a :: l).getLast? = Option.or l.getLast? (some a) := by
  cases l with
  | nil => rfl
  | cons b bs =>
    rw [List.getLast?_cons_cons]
    cases h : (b :: bs).getLast? with
    | none => simp at h
    | some c => rfl

/-- After the in-place update of dictInsert, the updated key maps to the
new value (provided it occurs at all). -/
theorem dictLookup_map_update_self {β : Type} (d : List (String × β))
    (k : String) (v : β) (hmem : k ∈ d.map Prod.fst) :
    dictLookup (d.map (fun p => if p.1 = k then (k, v) else p)) k = some v := by
  induction d with
  | nil => cases hmem
  | cons q qs ih =>
    by_cases hq : q.1 = k
    · simp [dictLookup, hq]
    · have hmem2 : k ∈ qs.map Prod.fst := by
        rw [List.map_cons] at hmem
        rcases List.mem_cons.mp hmem with h1 | h1
        · exact absurd h1.symm hq
        · exact h1
      simpa [dictLookup, hq] using ih hmem2

/-- The in-place update of dictInsert leaves other keys untouched. -/
theorem dictLookup_map_update_ne {β : Type} (d : List (String × β))
    (k k' : String) (v : β) (h : k' ≠ k) :
    dictLookup (d.map (fun p => if p.1 = k then (k, v) else p)) k' =
      dictLookup d k' := by
  induction d with
  | nil => rfl
  | cons q qs ih =>
    by_cases hq : q.1 = k
    · have h2 : ¬ (q.1 = k') := by rw [hq]; exact fun hh => h hh.symm
      have h3 : ¬ (k = k') := fun hh => h hh.symm
      simpa [dictLookup, hq, h2, h3] using ih
    · by_cases hq2 : q.1 = k'
      · rw [List.map_cons, if_neg hq]
        simp [dictLookup, hq2]
      · rw [List.map_cons, if_neg hq]
        simpa [dictLookup, hq2] using ih

/-- Appending a fresh pair is found when the key misses everywhere else. -/
theorem dictLookup_append_self {β : Type} (d : List (String × β))
    (k : String) (v : β) (hmiss : ∀ p ∈ d, ¬ p.1 = k) :
    dictLookup (d ++ [(k, v)]) k = some v := by
  induction d with
  | nil => simp [dictLookup]
  | cons q qs ih =>
    have hq : ¬ q.1 = k := hmiss q (List.mem_cons_self q qs)
    simpa [dictLookup, hq] using
      ih (fun p hp => hmiss p (List.mem_cons_of_mem q hp))

/-- Appending a pair of another key changes no other lookup. -/
theorem dictLookup_append_ne {β : Type} (d : List (String × β))
    (k k' : String) (v : β) (h : k' ≠ k) :
    dictLookup (d ++ [(k, v)]) k' = dictLookup d k' := by
  induction d with
  | nil =>
    have h3 : ¬ (k = k') := fun hh => h hh.symm
    simp [dictLookup, h3]
  | cons q qs ih =>
    by_cases hq : q.1 = k'
    · simp [dictLookup, hq]
    · simpa [dictLookup, hq] using ih

/-- Looking up the inserted key finds the inserted value. -/
theorem dictLookup_dictInsert_self {β : Type} (d : List (String × β))
    (k : String) (v : β) : dictLookup (dictInsert d k v) k = some v := by
  unfold dictInsert
  by_cases hany : d.any (fun p => p.1 = k) = true
  · rw [if_pos hany]
    apply dictLookup_map_update_self
    obtain ⟨p, hp, hpk⟩ := List.any_eq_true.mp hany
    exact List.mem_map.mpr ⟨p, hp, of_decide_eq_true hpk⟩
  · rw [if_neg hany]
    apply dictLookup_append_self
    intro p hp hpk
    exact hany (List.any_eq_true.mpr ⟨p, hp, decide_eq_true hpk⟩)

/-- Looking up a different key is unaffected by an insertion. -/
theorem dictLookup_dictInsert_ne {β : Type} (d : List (String × β))
    (k k' : String) (v : β) (h : k' ≠ k) :
    dictLookup (dictInsert d k v) k' = dictLookup d k' := by
  unfold dictInsert
  by_cases hany : d.any (fun p => p.1 = k) = true
  · rw [if_pos hany]
    exact dictLookup_map_update_ne d k k' v h
  · rw [if_neg hany]
    exact dictLookup_append_ne d k k' v h

/-- The in-place update of dictInsert keeps the key list unchanged. -/
theorem keys_map_update {β : Type} (d : List (String × β)) (k : String)
    (v : β) :
    (d.map (fun p => if p.1 = k then (k, v) else p)).map Prod.fst =
      d.map Prod.fst := by
  induction d with
  | nil => rfl
  | cons q qs ih =>
    by_cases hq : q.1 = k
    · simp [hq, ih]
    · simp [hq, ih]

/-- dictInsert keeps the keys free of duplicates. -/
theorem keys_nodup_dictInsert {β : Type} (d : List (String × β)) (k : String)
    (v : β) (hnd : (d.map Prod.fst).Nodup) :
    ((dictInsert d k v).map Prod.fst).Nodup := by
  unfold dictInsert
  by_cases hany : d.any (fun p => p.1 = k) = true
  · rw [if_pos hany, keys_map_update]
    exact hnd
  · rw [if_neg hany, List.map_append, List.nodup_append]
    refine ⟨hnd, by simp, ?_⟩
    intro a ha hb
    simp only [List.map_cons, List.map_nil, List.mem_singleton] at hb
    subst hb
    obtain ⟨p, hp, hpk⟩ := List.mem_map.mp ha
    exact hany (List.any_eq_true.mpr ⟨p, hp, decide_eq_true hpk⟩)

/-- Every key of dictInsert is the inserted key or an old key. -/
theorem keys_dictInsert_sub {β : Type} (d : List (String × β)) (k : String)
    (v : β) (k' : String) (h : k' ∈ (dictInsert d k v).map Prod.fst) :
    k' = k ∨ k' ∈ d.map Prod.fst := by
  unfold dictInsert at h
  by_cases hany : d.any (fun p => p.1 = k) = true
  · rw [if_pos hany, keys_map_update] at h
    exact Or.inr h
  · rw [if_neg hany, List.map_append] at h
    rcases List.mem_append.mp h with h1 | h1
    · exact Or.inr h1
    · simp only [List.map_cons, List.map_nil, List.mem_singleton] at h1
      exact Or.inl h1

/-- Full behavior of the image loop on an open handle: it never fails, the
final value of a basename is the last successful read of an image bearing
it (else what the accumulator held), keys stay duplicate-free, and every
key is an image basename or came in with the accumulator. -/
theorem pullLoop_spec (zip : ZipState) (hopen : zip.fpOpen = true) :
    ∀ (l : List File) (acc : List (String × Bytes)),
      ∃ m, pullLoop zip l acc = Except.ok m ∧
        (∀ b, dictLookup m b =
          Option.or ((l.filterMap (fun x =>
            if basename x.Target = b
            then (ZipState.read zip (File.pathOf x)).toOption
            else none)).getLast?) (dictLookup acc b)) ∧
        ((acc.map Prod.fst).Nodup → (m.map Prod.fst).Nodup) ∧
        (∀ kb ∈ m.map Prod.fst,
          kb ∈ l.map (fun x => basename x.Target) ∨
            kb ∈ acc.map Prod.fst) := by
  intro l
  induction l with
  | nil =>
    intro acc
    exact ⟨acc, rfl, by simp, fun hh => hh, fun kb hkb => Or.inr hkb⟩
  | cons x rest ih =>
    intro acc
    cases hread : ZipState.read zip (File.pathOf x) with
    | error e =>
      cases e with
      | closed => exact absurd hread (read_open_ne_closed hopen)
      | keyError =>
        obtain ⟨m, hm, hlk, hnd, hkeys⟩ := ih acc
        refine ⟨m, ?_, ?_, hnd, ?_⟩
        · simp only [pullLoop, hread]
          exact hm
        · intro b
          rw [hlk b]
          have hfx : (if basename x.Target = b
              then (ZipState.read zip (File.pathOf x)).toOption
              else none) = none := by
            rw [hread]
            simp [Except.toOption]
          rw [List.filterMap_cons, hfx]
        · intro kb hkb
          rcases hkeys kb hkb with h1 | h1
          · exact Or.inl (List.mem_cons_of_mem _ h1)
          · exact Or.inr h1
    | ok bs =>
      obtain ⟨m, hm, hlk, hnd, hkeys⟩ := ih (dictInsert acc (basename x.Target) bs)
      refine ⟨m, ?_, ?_, ?_, ?_⟩
      · simp only [pullLoop, hread]
        exact hm
      · intro b
        rw [hlk b]
        by_cases hb : basename x.Target = b
        · have hfx : (if basename x.Target = b
              then (ZipState.read zip (File.pathOf x)).toOption
              else none) = some bs := by
            rw [if_pos hb, hread]
            rfl
          rw [List.filterMap_cons, hfx, getLast?_cons_or, Option.or_assoc]
          rw [hb, dictLookup_dictInsert_self]
          rfl
        · have hfx : (if basename x.Target = b
              then (ZipState.read zip (File.pathOf x)).toOption
              else none) = none := by
            rw [if_neg hb]
          rw [List.filterMap_cons, hfx,
            dictLookup_dictInsert_ne acc (basename x.Target) b bs
              (fun hh => hb hh.symm)]
      · intro hndacc
        exact hnd (keys_nodup_dictInsert acc (basename x.Target) bs hndacc)
      · intro kb hkb
        rcases hkeys kb hkb with h1 | h1
        · exact Or.inl (List.mem_cons_of_mem _ h1)
        · rcases keys_dictInsert_sub acc (basename x.Target) bs kb h1 with h2 | h2
          · exact Or.inl (by rw [h2, List.map_cons]; exact List.mem_cons_self _ _)
          · exact Or.inr h2

/-- With duplicate-free keys, a present key has exactly one entry. -/
theorem single_entry_of_lookup {β : Type} :
    ∀ (m : List (String × β)) (b : String) (v : β),
      (m.map Prod.fst).Nodup → dictLookup m b = some v →
      (m.filter (fun p => decide (p.1 = b))).length = 1 := by
  intro m
  induction m with
  | nil =>
    intro b v _ hl
    simp [dictLookup] at hl
  | cons p ps ih =>
    intro b v hnd hl
    rw [List.map_cons] at hnd
    have hnd2 := List.nodup_cons.mp hnd
    by_cases hp : p.1 = b
    · have hrest : ps.filter (fun q => decide (q.1 = b)) = [] := by
        rw [List.filter_eq_nil_iff]
        intro q hq
        simp only [decide_eq_true_eq]
        intro hqb
        exact hnd2.1 (by rw [hp, ← hqb]; exact List.mem_map_of_mem Prod.fst hq)
      simp [List.filter_cons, hp, hrest]
    · have hl2 : dictLookup ps b = some v := by
        simpa [dictLookup, hp] using hl
      simpa [List.filter_cons, hp] using ih b v hnd2.2 hl2

/-- A permutation of an explicit pair is the pair or its swap. -/
theorem perm_pair_cases {α : Type} (l : List α) (a b : α)
    (h : l.Perm [a, b]) : l = [a, b] ∨ l = [b, a] := by
  cases l with
  | nil => exact absurd h.length_eq (by simp)
  | cons x xs =>
    cases xs with
    | nil => exact absurd h.length_eq (by simp)
    | cons y ys =>
      cases ys with
      | cons z zs => exact absurd h.length_eq (by simp)
      | nil =>
        have hx : x = a ∨ x = b := by
          have h1 := h.mem_iff.mp (List.mem_cons_self x [y])
          simpa using h1
        rcases hx with h1 | h1
        · rw [h1] at h
          have h2 : [y].Perm [b] := h.cons_inv
          have h3 : y = b := by simpa using List.perm_singleton.mp h2
          left
          rw [h1, h3]
        · rw [h1] at h
          have hswap : ([a, b] : List α).Perm [b, a] := List.Perm.swap b a []
          have h2 : [y].Perm [a] := (h.trans hswap).cons_inv
          have h3 : y = a := by simpa using List.perm_singleton.mp h2
          right
          rw [h1, h3]

/-- A sorted selection that is a permutation of a pair in strictly
ascending path order is that pair in that order. -/
theorem sorted_filter_pair (S : List File) (q : File → Bool) (x1 x2 : File)
    (hsorted : List.Sorted pathLe S)
    (hperm : (S.filter q).Perm [x1, x2])
    (hlt : strLe (File.pathOf x1) (File.pathOf x2) = true)
    (hne : File.pathOf x1 ≠ File.pathOf x2) :
    S.filter q = [x1, x2] := by
  rcases perm_pair_cases _ x1 x2 hperm with h | h
  · exact h
  · have hsf : List.Pairwise pathLe (S.filter q) :=
      List.Pairwise.sublist (List.filter_sublist S) hsorted
    rw [h] at hsf
    have h21 : pathLe x2 x1 := (List.pairwise_cons.mp hsf).1 x1 (by simp)
    exact absurd (strLe_antisymm hlt h21) hne

/-- A filterMap vanishing outside a filter restricts to the filter. -/
theorem filterMap_eq_filterMap_filter {α β : Type} (f : α → Option β)
    (q : α → Bool) (h : ∀ x, q x = false → f x = none) :
    ∀ l : List α, l.filterMap f = (l.filter q).filterMap f := by
  intro l
  induction l with
  | nil => rfl
  | cons a as ih =>
    by_cases hq : q a = true
    · rw [List.filterMap_cons, List.filter_cons, if_pos hq, List.filterMap_cons]
      cases hfa : f a <;> rw [ih]
    · have hqf : q a = false := by simpa using hq
      rw [List.filterMap_cons, h a hqf, List.filter_cons, if_neg (by simp [hqf])]
      exact ih

/-- C10: the mapping pull_image_files returns is keyed by the basename of
each image part's declared Target, so when exactly two distinct image parts
share a target basename (both with readable entries, paths in strict
ascending order), the mapping holds a single entry for that basename whose
bytes are those of the part whose storage path sorts last. -/
theorem pull_image_files_last_basename_wins (ext : Externals)
    (r : DocxReader) (x1 x2 : File) (b : String) (v1 v2 : Bytes)
    (hfil : ((DocxReader.filesGet ext r).1.filter
        (fun y => decide (y.Type_ = ("image")) &&
          decide (basename y.Target = b))).Perm [x1, x2])
    (hlt : strLe (File.pathOf x1) (File.pathOf x2) = true)
    (hne : File.pathOf x1 ≠ File.pathOf x2)
    (hr1 : ZipState.read (DocxReader.zipfGet (DocxReader.files_of_type ext r
        (some ("image"))).2).1 (File.pathOf x1) = Except.ok v1)
    (hr2 : ZipState.read (DocxReader.zipfGet (DocxReader.files_of_type ext r
        (some ("image"))).2).1 (File.pathOf x2) = Except.ok v2) :
    ∃ m r1, DocxReader.pull_image_files ext r = Except.ok (m, r1) ∧
      dictLookup m b = some v2 ∧
      (m.filter (fun p => decide (p.1 = b))).length = 1 ∧
      (∀ p ∈ m, p.1 ∈ (DocxReader.files_of_type ext r
        (some ("image"))).1.map (fun y => basename y.Target)) := by
  have hopen := read_ok_open hr1
  obtain ⟨m, hm, hlk, hnd, hkeys⟩ := pullLoop_spec _ hopen
    (DocxReader.files_of_type ext r (some ("image"))).1 []
  have hx1mem : x1 ∈ (DocxReader.filesGet ext r).1.filter
      (fun y => decide (y.Type_ = ("image")) &&
        decide (basename y.Target = b)) :=
    hfil.mem_iff.mpr (List.mem_cons_self _ _)
  have hx2mem : x2 ∈ (DocxReader.filesGet ext r).1.filter
      (fun y => decide (y.Type_ = ("image")) &&
        decide (basename y.Target = b)) :=
    hfil.mem_iff.mpr (List.mem_cons_of_mem _ (List.mem_cons_self _ _))
  have hb1 : basename x1.Target = b := by
    have h1 := (List.mem_filter.mp hx1mem).2
    simp only [Bool.and_eq_true, decide_eq_true_eq] at h1
    exact h1.2
  have hb2 : basename x2.Target = b := by
    have h1 := (List.mem_filter.mp hx2mem).2
    simp only [Bool.and_eq_true, decide_eq_true_eq] at h1
    exact h1.2
  have hq : ∀ y : File, (decide (basename y.Target = b)) = false →
      (if basename y.Target = b
        then (ZipState.read (DocxReader.zipfGet (DocxReader.files_of_type ext r
          (some ("image"))).2).1 (File.pathOf y)).toOption
        else none) = none := by
    intro y hy
    rw [if_neg (of_decide_eq_false hy)]
  have hperm2 : ((DocxReader.files_of_type ext r (some ("image"))).1.filter
      (fun y => decide (basename y.Target = b))).Perm [x1, x2] := by
    have hp1 := (files_of_typeCalc_some_perm (DocxReader.filesGet ext r).1
      ("image")).filter (fun y => decide (basename y.Target = b))
    rw [List.filter_filter] at hp1
    have hcomm : (DocxReader.filesGet ext r).1.filter
        (fun y => decide (basename y.Target = b) &&
          decide (y.Type_ = ("image"))) =
        (DocxReader.filesGet ext r).1.filter
        (fun y => decide (y.Type_ = ("image")) &&
          decide (basename y.Target = b)) :=
      List.filter_congr (fun y _ => Bool.and_comm _ _)
    rw [hcomm] at hp1
    exact hp1.trans hfil
  have hSfil : (DocxReader.files_of_type ext r (some ("image"))).1.filter
      (fun y => decide (basename y.Target = b)) = [x1, x2] :=
    sorted_filter_pair _ _ x1 x2
      (files_of_typeCalc_sorted (DocxReader.filesGet ext r).1 (some ("image")))
      hperm2 hlt hne
  have hwrites : (DocxReader.files_of_type ext r (some ("image"))).1.filterMap
      (fun x => if basename x.Target = b
        then (ZipState.read (DocxReader.zipfGet (DocxReader.files_of_type ext r
          (some ("image"))).2).1 (File.pathOf x)).toOption
        else none) = [v1, v2] := by
    rw [filterMap_eq_filterMap_filter _
      (fun y => decide (basename y.Target = b)) hq]
    rw [hSfil]
    simp [hb1, hb2, hr1, hr2, Except.toOption]
  have hlook : dictLookup m b = some v2 := by
    rw [hlk b, hwrites]
    simp [dictLookup]
  have hndm : (m.map Prod.fst).Nodup := hnd (by simp)
  refine ⟨m, (DocxReader.zipfGet (DocxReader.files_of_type ext r
    (some ("image"))).2).2.1, ?_, hlook,
    single_entry_of_lookup m b v2 hndm hlook, ?_⟩
  · simp only [DocxReader.pull_image_files]
    rw [hm]
  · intro p hp
    rcases hkeys p.1 (List.mem_map_of_mem Prod.fst hp) with h1 | h1
    · exact h1
    · simp at h1

set_option maxRecDepth 8000 in
/-- Witness for C10: the two image parts of exReaderImages share the
basename image1.png, the archive holds bytes for both, and the returned
mapping holds a single image1.png entry with the bytes of the part at
word/media2/image1.png, the later path. -/
theorem pull_image_files_last_basename_wins_witness :
    ∃ m r1, DocxReader.pull_image_files exExternals exReaderImages =
      Except.ok (m, r1) ∧
      dictLookup m ("image1.png") = some [2] ∧
      (m.filter (fun p => decide (p.1 = ("image1.png")))).length = 1 ∧
      (∀ p ∈ m, p.1 ∈ (DocxReader.files_of_type exExternals exReaderImages
        (some ("image"))).1.map (fun y => basename y.Target)) :=
  pull_image_files_last_basename_wins exExternals exReaderImages exImage1
    exImage2 ("image1.png") [1] [2]
    (by
      have h : (DocxReader.filesGet exExternals exReaderImages).1.filter
          (fun y => decide (y.Type_ = ("image")) &&
            decide (basename y.Target = ("image1.png")))
          = [exImage2, exImage1] := rfl
      rw [h]
      exact List.Perm.swap exImage1 exImage2 [])
    (by decide) (by decide) rfl rfl

set_option maxRecDepth 8000 in
/-- C1, evidence of the code bug at concrete failing inputs: _copy_but
closes the destination handle too (out_zip.close() on line 416), so save
raises ValueError at the first content part even when its XML root is
cached -- writestr on the closed destination -- and with an uncached root
the read of the already closed source fails first.  In both cases the
destination archive ends holding exactly the byte-identical copy of the
styles entry, the one non-content entry, and no content part is ever
written. -/
theorem save_never_writes_content_parts :
    DocxReader.save exExternals exReaderCached =
      Except.error (SaveErr.writeClosed,
        { written := [OutEntry.copied { filename := "word/styles.xml", meta := 1 } [30]],
          fpOpen := false }) ∧
    DocxReader.save exExternals exReaderUncached =
      Except.error (SaveErr.read ReadErr.closed,
        { written := [OutEntry.copied { filename := "word/styles.xml", meta := 1 } [30]],
          fpOpen := false }) :=
  ⟨rfl, rfl⟩

end docx2python
